import Mathlib

/-!
Verification development for the QuantAc retrieval-and-answer pipeline.

The Python sources (`rag_answer.py`, `ingest_mda.py`, `ingest_excel.py`,
`app.py`) are shallowly embedded below.  Text is modelled as `String` on the
query side and as `List Char` on the ingestion side (Python `len` equals the
character count in both views).  Python `None`-able values become `Option`,
fallible code returns `Except`, and the external vector search is an input
(a list of candidate documents with optional distance scores).  Numeric
spreadsheet values are modelled as exact rationals; the number-formatting
functions implement the decimal renderings of the corresponding Python
format specifiers with round-half-even, which agree with CPython on every
input whose value is exactly representable.
-/

namespace Quantac

/-- `leadsWith needle hay`: `needle` occurs at the start of `hay`. -/
def leadsWith : List Char → List Char → Bool
  | [], _ => true
  | _ :: _, [] => false
  | a :: as, b :: bs => a = b && leadsWith as bs

/-- `occursIn needle hay`: `needle` occurs contiguously somewhere in `hay`. -/
def occursIn (needle : List Char) : List Char → Bool
  | [] => needle.isEmpty
  | hay@(_ :: t) => leadsWith needle hay || occursIn needle t

/-- Python `str.lower()` (ASCII case mapping, the range used by the
corpus). -/
def pyLower (s : String) : String :=
  String.mk (s.data.map Char.toLower)

/-- Python `k in q`: substring containment of `k` in `q`. -/
def strContains (q k : String) : Bool :=
  occursIn k.data q.data

/-- Python `any(k in q for k in ks)`. -/
def containsAny (q : String) (ks : List String) : Bool :=
  ks.any (fun k => strContains q k)

/-! ## rag_answer.py: intent detection and query analysis -/

/-- Keyword list of the first (risk) branch of `detect_intent`. -/
def riskQueryKeywords : List String :=
  ["risk", "threat", "challenge", "concern", "exposure", "headwind"]

/-- Keyword list of the second (outlook) branch of `detect_intent`. -/
def outlookQueryKeywords : List String :=
  ["outlook", "future", "strategy", "plan", "guidance", "way forward", "priority"]

/-- Keyword list of the third (performance) branch of `detect_intent`. -/
def performanceQueryKeywords : List String :=
  ["performance", "revenue", "profit", "growth", "earnings", "margin", "ebitda", "pat"]

/-- Keyword list of the fourth (people) branch of `detect_intent`. -/
def peopleQueryKeywords : List String :=
  ["employee", "talent", "hiring", "attrition", "workforce", "headcount"]

/-- `detect_intent` from rag_answer.py: ordered first-match-wins keyword tests
on the lower-cased query. -/
def detect_intent (query : String) : String :=
  let q := pyLower query
  if containsAny q riskQueryKeywords then "risk"
  else if containsAny q outlookQueryKeywords then "outlook"
  else if containsAny q performanceQueryKeywords then "performance"
  else if containsAny q peopleQueryKeywords then "people"
  else "general"

/-- `INTENT_KEYWORDS` from rag_answer.py, as an association list in
declaration order. -/
def INTENT_KEYWORDS : List (String × List String) :=
  [("risk",
    ["risk", "threat", "challenge", "concern", "exposure",
     "uncertainty", "adverse", "impact", "pressure", "headwind"]),
   ("outlook",
    ["future", "strategy", "plan", "outlook", "expect",
     "guidance", "going forward", "initiatives", "focus", "target", "priority"]),
   ("performance",
    ["revenue", "profit", "growth", "increased", "decreased",
     "performance", "earnings", "margin", "grew", "crore", "billion", "ebitda", "pat"]),
   ("people",
    ["employee", "talent", "hiring", "attrition", "workforce",
     "headcount", "training", "culture"]),
   ("general",
    ["information", "detail", "overview", "summary"])]

/-- The ASCII apostrophe (U+0027), written via its code point. -/
def apos : String :=
  String.singleton (Char.ofNat 39)

/-- The `intent_instructions` table from `generate_answer`. -/
def intent_instructions : List (String × String) :=
  [("risk", "Identify and clearly categorise the specific risks mentioned. Group similar risks together (e.g. credit risk, market risk, operational risk, regulatory risk)."),
   ("outlook", "Focus on future plans, strategic priorities, and management" ++ apos ++ "s expectations. Present as forward-looking structured points."),
   ("performance", "Focus on specific financial figures, growth rates, and year-on-year comparisons. Be precise with numbers and percentages."),
   ("people", "Focus on workforce metrics, hiring, attrition, and talent strategy."),
   ("general", "Provide a clear, well-structured overview of the relevant information.")]

/-- `COMPANY_MAP` from rag_answer.py in declaration order. -/
def COMPANY_MAP : List (String × String) :=
  [("icici", "ICICI Bank"), ("hdfc", "HDFC"), ("tcs", "TCS"),
   ("infosys", "Infosys"), ("reliance", "Reliance Industries"),
   ("adani", "Adani Power")]

/-- `extract_company` from rag_answer.py: first alias (in table order) found as
a substring of the lower-cased query. -/
def extract_company (query : String) : Option (String × String) :=
  let q := pyLower query
  COMPANY_MAP.find? (fun p => strContains q p.1)

/-- `extract_year` from rag_answer.py. -/
def extract_year (query : String) : Option String :=
  let q := pyLower query
  if strContains q "2024" || strContains q "fy24" || strContains q "2023-24" then
    some "FY2023-24"
  else if strContains q "2025" || strContains q "fy25" || strContains q "2024-25" then
    some "FY2024-25"
  else
    none

/-! ## rag_answer.py: retrieval -/

/-- Python whitespace class `\s` (ASCII part). -/
def isPyWs (c : Char) : Bool :=
  c = ' ' || c = '\t' || c = '\n' || c = '\r' || c = Char.ofNat 11 || c = Char.ofNat 12

/-- Python `str.strip()` on a character list. -/
def pyStrip (l : List Char) : List Char :=
  ((l.dropWhile isPyWs).reverse.dropWhile isPyWs).reverse

/-- Python `str.strip()` on a string. -/
def pyStripStr (s : String) : String :=
  String.mk (pyStrip s.data)

/-- Worker for `pyWords`: accumulate the current word (reversed), closing it
at whitespace. -/
def wordsAux : List Char → List Char → List String
  | [], cur => if cur = [] then [] else [String.mk cur.reverse]
  | c :: rest, cur =>
    if isPyWs c then
      if cur = [] then wordsAux rest []
      else String.mk cur.reverse :: wordsAux rest []
    else wordsAux rest (c :: cur)

/-- Python `str.split()` (split on whitespace runs, dropping empty pieces). -/
def pyWords (s : String) : List String :=
  wordsAux s.data []

/-- Python truthiness of an optional string: `None` and `""` are falsy. -/
def pyTruthy : Option String → Option String
  | some "" => none
  | o => o

/-- Python `a or b` for an optional string `a` and string default `b`. -/
def pyOrStr (a : Option String) (b : String) : String :=
  match pyTruthy a with
  | some s => s
  | none => b

/-- Metadata stored with every indexed chunk (the ingestion paths always set
all five keys, so the record is total; `chunk_index` is an integer in the
index). -/
structure DocMeta where
  company : String
  year : String
  «section» : String
  chunk_index : Int
deriving DecidableEq, Repr

/-- A candidate document coming back from the vector search. -/
structure Document where
  page_content : String
  metadata : DocMeta
deriving DecidableEq, Repr

/-- An attribution record appended to the `sources` list of
`retrieve_context`. -/
structure SourceRec where
  company : String
  year : String
  «section» : String
  chunk_index : Int
deriving DecidableEq, Repr

/-- The tuple returned by `retrieve_context`. -/
structure RetrievalOut where
  chunks : List String
  sources : List SourceRec
  intent : String
  company_filter : Option String
  year_filter : Option String
deriving DecidableEq, Repr

/-- The post-search filtering loop of `retrieve_context` (rag_answer.py
lines 151-183): drop candidates above the distance threshold (only when a
score is present), candidates failing the company/year metadata filters and
candidates whose stripped content is under 100 characters; surviving
candidates contribute their text to `chunks` and one attribution record to
`sources`, in order. -/
def filterLoop (company_key year_filter : Option String) (score_threshold : ℚ) :
    List (Document × Option ℚ) → List String × List SourceRec
  | [] => ([], [])
  | (doc, score) :: rest =>
    let skip : Bool :=
      (match score with | some sc => decide (score_threshold < sc) | none => false) ||
      (match company_key with
       | some k => !(strContains (pyLower doc.metadata.company) k)
       | none => false) ||
      (match year_filter with | some y => decide (doc.metadata.year ≠ y) | none => false) ||
      decide ((pyStripStr doc.page_content).length < 100)
    if skip then filterLoop company_key year_filter score_threshold rest
    else
      let out := filterLoop company_key year_filter score_threshold rest
      (pyStripStr doc.page_content :: out.1,
       { company := doc.metadata.company, year := doc.metadata.year,
         «section» := doc.metadata.«section»,
         chunk_index := doc.metadata.chunk_index } :: out.2)

/-- `retrieve_context` from rag_answer.py.  The vector search itself is
external; its candidate list (documents, with a distance score on the
similarity-search fallback path and `none` on the MMR path) is an input.
Resolution of absent filters from the query, derivation of the company key
(first word of the lower-cased filter; Python raises `IndexError` when the
filter is truthy but has no words, modelled by `Except.error`) and the
filtering loop are modelled faithfully. -/
def retrieve_context (docs_with_scores : List (Document × Option ℚ)) (query : String)
    (company_filter year_filter : Option String) (score_threshold : ℚ) :
    Except Unit RetrievalOut :=
  let intent := detect_intent query
  let cf := match company_filter with
    | none => (extract_company query).map Prod.snd
    | some c => some c
  let yf := match year_filter with
    | none => extract_year query
    | some y => some y
  match pyTruthy cf with
  | some c =>
    match (pyWords (pyLower c)).head? with
    | none => .error ()
    | some key =>
      let out := filterLoop (some key) (pyTruthy yf) score_threshold docs_with_scores
      .ok ⟨out.1, out.2, intent, cf, yf⟩
  | none =>
    let out := filterLoop none (pyTruthy yf) score_threshold docs_with_scores
    .ok ⟨out.1, out.2, intent, cf, yf⟩

/-! ## rag_answer.py: answer composition -/

/-- Outcome of `generate_answer`: either a string returned without any
language-generation call, or a single generation call with the two prompts
that the Python code passes to the model (the result of that external call,
and the credential checks around it, are environment effects outside the
embedding). -/
inductive GenResult where
  | fixed (answer : String)
  | generation (system_prompt user_prompt : String)
deriving DecidableEq, Repr

/-- The fixed no-information answer of `generate_answer`. -/
def noInfoAnswer : String :=
  "No relevant information found in the documents for this query."

/-- The system prompt of `generate_answer`. -/
def systemPromptText : String :=
  "You are a senior financial analyst assistant specialising in analysing \nManagement Discussion & Analysis (MD&A) sections of annual reports.\n\nAnswer questions clearly and concisely based ONLY on the provided document excerpts.\nDo not use outside knowledge. If something is not in the excerpts, say so explicitly.\n\nRules:\n- Write in clear, professional financial language\n- Use bullet points for lists of items\n- Bold (**text**) important figures, percentages, and key terms\n- Group related points under short sub-headings where it helps clarity\n- Always cite specific numbers when they appear in the context\n- Do not repeat the same point\n- If comparing across years, clearly label each year" ++ apos ++ "s data"

/-- `generate_answer` from rag_answer.py: returns the fixed no-information
string when `chunks` is empty, otherwise builds the prompts and issues one
generation call. -/
def generate_answer (query : String) (chunks : List String) (intent : String)
    (company_name year_filter : Option String) : GenResult :=
  if chunks = [] then .fixed noInfoAnswer
  else
    let context := String.intercalate "\n\n---\n\n" chunks
    let instruction := match intent_instructions.lookup intent with
      | some s => s
      | none => "Provide a clear, well-structured overview of the relevant information."
    let company := pyOrStr company_name "the company"
    let year_context := match pyTruthy year_filter with
      | some y => " for " ++ y
      | none => " across available years"
    let user_prompt :=
      "Based on the following excerpts from " ++ company ++ apos ++ "s MD&A report" ++
      year_context ++ ", answer this question:\n\n**Question:** " ++ query ++
      "\n\n**Instruction:** " ++ instruction ++ "\n\n**Document Excerpts:**\n" ++
      context ++
      "\n\nProvide a well-structured, clear answer. Use sub-headings if there are multiple distinct categories to cover."
    .generation systemPromptText user_prompt

/-- The fixed no-information answer of `retrieve_and_answer`. -/
def noInfoAnswerPipeline : String :=
  "No relevant information found. Try rephrasing, selecting a specific company/year, or ensure the vectorstore is built."

/-- The dictionary returned by `retrieve_and_answer`. -/
structure RAResult where
  answer : GenResult
  sources : List SourceRec
  intent : String
  company : String
  year : String
deriving DecidableEq, Repr

/-- `retrieve_and_answer` from rag_answer.py: full pipeline over a given
candidate list. -/
def retrieve_and_answer (docs_with_scores : List (Document × Option ℚ)) (query : String)
    (company_filter year_filter : Option String) (score_threshold : ℚ) :
    Except Unit RAResult :=
  match retrieve_context docs_with_scores query company_filter year_filter score_threshold with
  | .error e => .error e
  | .ok out =>
    if out.chunks = [] then
      .ok ⟨.fixed noInfoAnswerPipeline, [], out.intent,
           pyOrStr out.company_filter "All Companies", pyOrStr out.year_filter "All Years"⟩
    else
      .ok ⟨generate_answer query out.chunks out.intent out.company_filter out.year_filter,
           out.sources, out.intent,
           pyOrStr out.company_filter "All Companies", pyOrStr out.year_filter "All Years"⟩

/-! ## app.py: source-card rendering (show_main_app, lines 557-564) -/

/-- The dedupe key used by `show_main_app`: `f"{company}-{year}-{section}"`. -/
def sourceKey (s : SourceRec) : String :=
  s.company ++ "-" ++ s.year ++ "-" ++ s.«section»

/-- The source-card loop of `show_main_app`: keep each source whose key was
not seen before (`seen_src` set), in order. -/
def dedupCards (seen : List String) : List SourceRec → List SourceRec
  | [] => []
  | s :: rest =>
    if sourceKey s ∈ seen then dedupCards seen rest
    else s :: dedupCards (sourceKey s :: seen) rest

/-- The deduplicated source cards rendered for one assistant message. -/
def renderedSourceCards (sources : List SourceRec) : List SourceRec :=
  dedupCards [] sources

/-! ## ingest_mda.py: cleaning, sentence splitting and chunking -/

/-- Dropping a matched run never lengthens a list. -/
theorem dropWhile_len_le {α : Type} (p : α → Bool) (l : List α) :
    (l.dropWhile p).length ≤ l.length := by
  induction l with
  | nil => simp [List.dropWhile]
  | cons a t ih =>
    simp only [List.dropWhile]
    split
    · exact Nat.le_succ_of_le ih
    · simp

/-- ASCII decimal digit. -/
def isDigitC (c : Char) : Bool :=
  '0' ≤ c && c ≤ '9'

/-- ASCII uppercase letter (the regex class `[A-Z]`). -/
def isUpperAZ (c : Char) : Bool :=
  'A' ≤ c && c ≤ 'Z'

/-- The sentence-terminating characters of the split regex (`[.!?]`). -/
def isSentEnd (c : Char) : Bool :=
  c = '.' || c = '!' || c = '?'

/-- Fueled worker for `collapseWs` (the fuel dominates the list length, so
the fuel never runs out on the initial call). -/
def collapseWsAux : ℕ → List Char → List Char
  | 0, _ => []
  | _ + 1, [] => []
  | fuel + 1, c :: rest =>
    if isPyWs c then ' ' :: collapseWsAux fuel (rest.dropWhile isPyWs)
    else c :: collapseWsAux fuel rest

/-- Collapse every maximal run of whitespace to a single space
(`re.sub(r"\s+", " ", text)`). -/
def collapseWs (l : List Char) : List Char :=
  collapseWsAux l.length l

/-- Remove every occurrence of `Page` followed by a space and one or more
digits (`re.sub(r"Page \d+", "", text)`), scanning left to right with
greedy digit runs. -/
def removePageTagsAux : ℕ → List Char → List Char
  | 0, _ => []
  | _ + 1, [] => []
  | fuel + 1, c :: rest =>
    if leadsWith ("Page ".data) (c :: rest) then
      let after := (c :: rest).drop 5
      if after.head?.elim false isDigitC then removePageTagsAux fuel (after.dropWhile isDigitC)
      else c :: removePageTagsAux fuel rest
    else c :: removePageTagsAux fuel rest

def removePageTags (l : List Char) : List Char :=
  removePageTagsAux l.length l

/-- Collapse every maximal run of newlines to a single space
(`re.sub(r"\n+", " ", text)`). -/
def collapseNlAux : ℕ → List Char → List Char
  | 0, _ => []
  | _ + 1, [] => []
  | fuel + 1, c :: rest =>
    if c = '\n' then ' ' :: collapseNlAux fuel (rest.dropWhile (fun d => d = '\n'))
    else c :: collapseNlAux fuel rest

def collapseNl (l : List Char) : List Char :=
  collapseNlAux l.length l

/-- `clean_text` from ingest_mda.py: whitespace collapse, page-number
removal, newline collapse, strip — in that order. -/
def clean_text (text : List Char) : List Char :=
  pyStrip (collapseNl (removePageTags (collapseWs text)))

/-- The abbreviation-protection table of `split_into_sentences`, in
insertion order. -/
def abbr_map : List (List Char × List Char) :=
  [("Dr.".data, "Dr".data), ("Mr.".data, "Mr".data), ("Ms.".data, "Ms".data),
   ("Inc.".data, "Inc".data), ("Ltd.".data, "Ltd".data),
   ("e.g.".data, "eg".data), ("i.e.".data, "ie".data), ("vs.".data, "vs".data),
   ("Rs.".data, "Rs".data), ("No.".data, "No".data), ("Co.".data, "Co".data),
   ("approx.".data, "approx".data), ("est.".data, "est".data)]

/-- Python `str.replace`: replace every non-overlapping occurrence of `pat`
(left to right) by `rep`. -/
def replaceAllAux (pat rep : List Char) : ℕ → List Char → List Char
  | 0, _ => []
  | _ + 1, [] => []
  | fuel + 1, c :: rest =>
    if pat ≠ [] ∧ leadsWith pat (c :: rest) then
      rep ++ replaceAllAux pat rep fuel ((c :: rest).drop pat.length)
    else c :: replaceAllAux pat rep fuel rest

def replaceAll (pat rep : List Char) (text : List Char) : List Char :=
  replaceAllAux pat rep text.length text

/-- The abbreviation substitutions applied by `split_into_sentences` before
splitting.  (Marked irreducible so that goals over symbolic text do not
unfold the substitution cascade; proofs that evaluate it on concrete text
restore reducibility locally.) -/
@[irreducible]
def applyAbbrevs (text : List Char) : List Char :=
  abbr_map.foldl (fun t p => replaceAll p.1 p.2 t) text

/-- Worker for the regex split `(?<=[.!?])\s+(?=[A-Z])`: `curRev` is the
current piece (reversed); `wsRev` is a pending whitespace run (reversed)
whose preceding character was `[.!?]` — the run becomes a split point
exactly when the character after it is `[A-Z]`, otherwise it stays in the
current piece. -/
def splitSentencesAux : List Char → List Char → List Char → List (List Char)
  | [], curRev, wsRev => [(wsRev ++ curRev).reverse]
  | c :: rest, curRev, wsRev =>
    if wsRev ≠ [] then
      if isPyWs c then splitSentencesAux rest curRev (c :: wsRev)
      else if isUpperAZ c then curRev.reverse :: splitSentencesAux rest [c] []
      else splitSentencesAux rest (c :: (wsRev ++ curRev)) []
    else
      if isPyWs c ∧ curRev.head?.elim false isSentEnd then
        splitSentencesAux rest curRev [c]
      else splitSentencesAux rest (c :: curRev) []

/-- `split_into_sentences` from ingest_mda.py: protect abbreviations, then
split at whitespace runs preceded by `.`/`!`/`?` and followed by an
uppercase letter. -/
def split_into_sentences (text : List Char) : List (List Char) :=
  splitSentencesAux (applyAbbrevs text) [] []

/-- The stripped, length-filtered sentence list that
`chunk_text_by_sentences` packs (`[s.strip() for s in sentences if
len(s.strip()) >= 10]`). -/
def sentencesOf (text : List Char) : List (List Char) :=
  ((split_into_sentences text).map pyStrip).filter (fun s => 10 ≤ s.length)

/-- Python `' '.join`. -/
def joinWith (sep : List Char) : List (List Char) → List Char
  | [] => []
  | [s] => s
  | s :: rest => s ++ sep ++ joinWith sep rest

/-- `' '.join` specialised to a single space. -/
def joinSp (ss : List (List Char)) : List Char :=
  joinWith [' '] ss

/-- Sum of the lengths of a list of sentences (Python
`sum(len(s) for s in current_chunk)`). -/
def lensSum : List (List Char) → ℕ
  | [] => 0
  | x :: t => x.length + lensSum t

/-- The greedy sentence-packing loop of `chunk_text_by_sentences`, returning
each chunk as its list of sentences.  Before appending a sentence that would
push the running size past `chunk_size` (with the buffer non-empty), the
buffer is emitted and reseeded with its last `overlap` sentences (whose
sizes are recounted without the joining spaces), exactly as in the Python
loop; a non-empty final buffer is flushed. -/
def packLoop (chunk_size overlap : ℕ) :
    List (List Char) → List (List Char) → ℕ → List (List (List Char))
  | [], cur, _ => if cur = [] then [] else [cur]
  | s :: rest, cur, size =>
    if chunk_size < size + s.length ∧ cur ≠ [] then
      let seed := cur.drop (cur.length - overlap)
      cur :: packLoop chunk_size overlap rest (seed ++ [s])
              (lensSum seed + (s.length + 1))
    else
      packLoop chunk_size overlap rest (cur ++ [s]) (size + (s.length + 1))

/-- The chunk sentence lists produced for a text (the packing loop applied
to the filtered sentences, from an empty buffer). -/
def chunkSentLists (text : List Char) (chunk_size overlap : ℕ) :
    List (List (List Char)) :=
  packLoop chunk_size overlap (sentencesOf text) [] 0

/-- `chunk_text_by_sentences` from ingest_mda.py: the packed chunks, each
joined with single spaces. -/
def chunk_text_by_sentences (text : List Char) (chunk_size overlap : ℕ) :
    List (List Char) :=
  (chunkSentLists text chunk_size overlap).map joinSp

/-- Chunk metadata attached by both ingestion paths. -/
structure ChunkMeta where
  company : String
  year : String
  doc_type : String
  «section» : String
  chunk_index : ℕ
deriving DecidableEq, Repr

/-- An emitted chunk (`{"content": ..., "metadata": ...}`). -/
structure Chunk where
  content : List Char
  metadata : ChunkMeta
deriving DecidableEq, Repr

/-- `chunk_sections` from ingest_mda.py: per section, clean and join the
entry texts, skip sections under 100 characters, chunk by sentences
(size 1000, overlap 2) and keep the chunks of at least 150 characters,
keeping the enumeration index of each chunk as `chunk_index`. -/
def chunk_sections (sections : List (String × List (List Char × ℕ)))
    (company year : String) : List Chunk :=
  (sections.map (fun se =>
    let combined := joinSp (se.2.map (fun e => clean_text e.1))
    if combined.length < 100 then []
    else
      ((chunk_text_by_sentences combined 1000 2).enum.filterMap (fun ic =>
        if ic.2.length < 150 then none
        else some ⟨ic.2, ⟨company, year, "MD&A", se.1, ic.1⟩⟩)))).flatten

/-! ## ingest_mda.py: section extraction -/

/-- `SECTION_KEYWORDS` from ingest_mda.py, in declaration order. -/
def SECTION_KEYWORDS : List (String × List String) :=
  [("Macro & Economic Environment",
    ["economic environment", "global economic", "macroeconomic", "economic outlook",
     "interest rate environment", "global economy", "economic conditions", "geopolitical"]),
   ("Industry & Sector Overview",
    ["banking industry", "industry overview", "industry scenario", "indian banking",
     "it industry", "technology industry", "software industry", "oil and gas",
     "energy sector", "telecom sector", "retail sector", "industry trends"]),
   ("Business Performance",
    ["business performance", "overview of performance", "performance during the year",
     "review of the year", "business overview", "key highlights", "year in review"]),
   ("Operating & Financial Performance",
    ["operating performance", "financial performance", "review of operations",
     "operational performance", "financial results", "results of operations",
     "consolidated performance"]),
   ("Segment Performance",
    ["segment performance", "segment-wise performance", "business segments",
     "geographic performance", "vertical performance", "service line", "segment results"]),
   ("Risks & Risk Management",
    ["risk management", "key risks", "credit risk", "market risk", "operational risk",
     "risk factors", "principal risks", "enterprise risk", "cybersecurity risk",
     "regulatory risk", "liquidity risk"]),
   ("Outlook & Strategy",
    ["outlook", "future outlook", "strategy", "way forward", "forward looking",
     "strategic priorities", "strategic focus", "growth strategy", "digital strategy",
     "sustainability", "esg"]),
   ("Human Capital",
    ["human capital", "employees", "talent", "workforce", "people strategy",
     "attrition", "hiring"]),
   ("Technology & Innovation",
    ["technology initiatives", "digital transformation", "artificial intelligence",
     "cloud", "innovation", "research and development", "r&d"])]

/-- The keyword scan of `extract_mda_sections`: the first section (in table
order) with a keyword occurring in the lower-cased line becomes current;
otherwise the current section is kept. -/
def updateSection (cur : String) (line_lower : String) : String :=
  match SECTION_KEYWORDS.find? (fun p => containsAny line_lower p.2) with
  | some p => p.1
  | none => cur

/-- One line of the extraction loop: update the current section from the
stripped, lower-cased line, then append `(section, cleanLine, page)` when the
stripped line is longer than 40 characters. -/
def extractLineStep (page : ℕ) (st : String × List (String × List Char × ℕ))
    (line : List Char) : String × List (String × List Char × ℕ) :=
  let line_clean := pyStrip line
  let line_lower := pyLower (String.mk line_clean)
  let cur := updateSection st.1 line_lower
  if 40 < line_clean.length then (cur, st.2 ++ [(cur, line_clean, page)])
  else (cur, st.2)

/-- Python `text.split("\n")`. -/
def splitNl (text : List Char) : List (List Char) :=
  List.splitOn '\n' text

/-- Process one page: pages whose text is falsy (empty) are skipped, others
are split into lines and folded through `extractLineStep`. -/
def extractPageStep (st : String × List (String × List Char × ℕ))
    (pg : ℕ × List Char) : String × List (String × List Char × ℕ) :=
  if pg.2 = [] then st
  else (splitNl pg.2).foldl (extractLineStep pg.1) st

/-- The tagged entry stream of `extract_mda_sections`: every qualifying line
paired with the section current when it was appended, across all pages
(numbered from 1), starting from the `MD&A-General` section. -/
def processPages (pages : List (List Char)) : List (String × List Char × ℕ) :=
  ((pages.enumFrom 1).foldl extractPageStep ("MD&A-General", [])).2

/-- The section labels of the `extracted` dictionary, in insertion order. -/
def sectionLabels : List String :=
  SECTION_KEYWORDS.map Prod.fst ++ ["MD&A-General"]

/-- `extract_mda_sections` from ingest_mda.py, over the page texts of a
document: the tagged entries grouped per section label (dictionary order),
with empty sections dropped. -/
def extract_mda_sections (pages : List (List Char)) :
    List (String × List (List Char × ℕ)) :=
  (sectionLabels.map (fun L =>
    (L, (processPages pages).filterMap (fun t =>
      if t.1 = L then some t.2 else none)))).filter (fun p => p.2 ≠ [])

/-! ## ingest_excel.py: number formatting and cash-flow chunks -/

/-- Python slice `l[i:]` with a possibly negative start index. -/
def pySliceFrom {α : Type} (i : ℤ) (l : List α) : List α :=
  if 0 ≤ i then l.drop i.toNat else l.drop (l.length - (-i).toNat)

/-- The decimal digit character for `n` (defined for `n < 10`). -/
def digitChar (n : ℕ) : Char :=
  Char.ofNat (48 + n % 10)

/-- Fueled worker for `natDigits`. -/
def natDigitsAux : ℕ → ℕ → List Char
  | 0, _ => []
  | fuel + 1, n =>
    if n < 10 then [digitChar n]
    else natDigitsAux fuel (n / 10) ++ [digitChar (n % 10)]

/-- Decimal digits of a natural number, most significant first. -/
def natDigits (n : ℕ) : List Char :=
  natDigitsAux (n + 1) n

/-- Group reversed digits in threes, inserting commas (worker for the `,`
format flag). -/
def groupRevAux : ℕ → List Char → List Char
  | 0, _ => []
  | _ + 1, [] => []
  | fuel + 1, d :: ds =>
    let h := (d :: ds).take 3
    let t := (d :: ds).drop 3
    if t = [] then h else h ++ ',' :: groupRevAux fuel t

def groupRev (l : List Char) : List Char :=
  groupRevAux l.length l

/-- Decimal rendering of a natural number with thousands separators
(Python `,` format flag). -/
def commaGroup (n : ℕ) : List Char :=
  (groupRev (natDigits n).reverse).reverse

/-- Round-half-even to an integer, the rounding used by Python `format`.
Written over the reduced numerator/denominator: `f` is the floor (the
denominator is positive, so integer division floors), and comparing
`t = 2 * (q - f) * den` with `den` compares the fractional part with
one half. -/
def roundHalfEven (q : ℚ) : ℤ :=
  let n := q.num
  let d : ℤ := (q.den : ℤ)
  let f := n / d
  let t := 2 * (n - f * d)
  if t < d then f
  else if d < t then f + 1
  else if f % 2 = 0 then f else f + 1

/-- Python `f"{v:.0f}"` on an exact rational: round half-even to an integer;
a negative input keeps its sign (CPython renders `-0` for small negative
values). -/
def fmtF0 (q : ℚ) : List Char :=
  (if q < 0 then ['-'] else []) ++ natDigits (roundHalfEven q).natAbs

/-- Python `f"{v:,.2f}"` on an exact rational: round `v * 100` half-even,
then render the integer part with thousands separators and exactly two
decimals. -/
def fmtComma2 (q : ℚ) : List Char :=
  let n := (roundHalfEven (q * 100)).natAbs
  (if q < 0 then ['-'] else []) ++
    commaGroup (n / 100) ++ '.' :: [digitChar (n % 100 / 10), digitChar (n % 10)]

/-- `fmt_num` from ingest_excel.py over exact numeric values: `None` becomes
`N/A`; values of absolute value at least 100000 are divided by 100 and
rendered with no decimals; all others are rendered directly with two
decimals and thousands separators.  Both carry the crore label. -/
def fmt_num (val : Option ℚ) : List Char :=
  match val with
  | none => "N/A".data
  | some v =>
    if 100000 ≤ |v| then "₹".data ++ fmtF0 (v / 100) ++ " crore".data
    else "₹".data ++ fmtComma2 v ++ " crore".data

/-- The cash-flow statement data handed to `generate_cf_chunks`: the period
labels captured from the `Report Date` row and the metric rows (name to
position-aligned optional values). -/
structure CFData where
  dates : List String
  rows : List (String × List (Option ℚ))

/-- The fixed metric list of `generate_cf_chunks`. -/
def cfKeyMetrics : List String :=
  ["Cash from Operating Activity", "Cash from Investing Activity",
   "Cash from Financing Activity", "Net Cash Flow"]

/-- `generate_cf_chunks` from ingest_excel.py: no chunk when there are no
dates; otherwise one summary chunk whose content is the header lines plus
one line per present metric with formatted recent values, with metadata
`{company, "Multi-Year", "Financial Data", "Cash Flow", 0}`. -/
def generate_cf_chunks (data : CFData) (company : String) : List Chunk :=
  if data.dates = [] then []
  else
    let recent_dates := pySliceFrom (-5) data.dates
    let recent_idx : ℤ := (data.dates.length : ℤ) - 5
    let metricLines := (cfKeyMetrics.map (fun metric =>
      match data.rows.lookup metric with
      | none => []
      | some vs =>
        let vals := pySliceFrom recent_idx vs
        let vals_clean := vals.filterMap id
        if vals_clean = [] then []
        else
          let row_dates := pySliceFrom (-(vals_clean.length : ℤ)) recent_dates
          let val_strs := (row_dates.zip vals_clean).map (fun dv =>
            dv.1.data ++ ": ".data ++ fmt_num (some dv.2))
          [metric.data ++ ": ".data ++ joinWith " | ".data val_strs])).flatten
    let lines := [company.data ++ " — Cash Flow Summary (₹ Crore)\n".data,
                  "Years: ".data ++ joinWith ", ".data (recent_dates.map String.data) ++
                    "\n".data] ++ metricLines
    [⟨joinWith "\n".data lines,
      ⟨company, "Multi-Year", "Financial Data", "Cash Flow", 0⟩⟩]

/-! ## Theorems -/

/-- C2: evaluation of `extract_year` at the failing input.  A query
containing the token `2024-25` also contains the substring `2024`, so the
first branch fires and the function returns `FY2023-24`, although the
second branch's own token table lists `2024-25` for `FY2024-25`. -/
theorem C2_extract_year_bug :
    extract_year "how did tcs perform in 2024-25?" = some "FY2023-24"
    ∧ strContains "how did tcs perform in 2024-25?" "2024-25" = true := by
  constructor
  · decide
  · decide

/-- C6: intent classification is first-match-wins over the five ordered
keyword sets with precedence risk > outlook > performance > people >
general; any query containing a risk keyword (whatever else it contains)
classifies as risk, and a query matching no set classifies as general. -/
theorem C6_intent_precedence (query : String) :
    (containsAny (pyLower query) riskQueryKeywords = true →
      detect_intent query = "risk")
    ∧ (containsAny (pyLower query) riskQueryKeywords = false →
       containsAny (pyLower query) outlookQueryKeywords = true →
      detect_intent query = "outlook")
    ∧ (containsAny (pyLower query) riskQueryKeywords = false →
       containsAny (pyLower query) outlookQueryKeywords = false →
       containsAny (pyLower query) performanceQueryKeywords = true →
      detect_intent query = "performance")
    ∧ (containsAny (pyLower query) riskQueryKeywords = false →
       containsAny (pyLower query) outlookQueryKeywords = false →
       containsAny (pyLower query) performanceQueryKeywords = false →
       containsAny (pyLower query) peopleQueryKeywords = true →
      detect_intent query = "people")
    ∧ (containsAny (pyLower query) riskQueryKeywords = false →
       containsAny (pyLower query) outlookQueryKeywords = false →
       containsAny (pyLower query) performanceQueryKeywords = false →
       containsAny (pyLower query) peopleQueryKeywords = false →
      detect_intent query = "general") := by
  unfold detect_intent
  refine ⟨fun h1 => ?_, fun h1 h2 => ?_, fun h1 h2 h3 => ?_,
          fun h1 h2 h3 h4 => ?_, fun h1 h2 h3 h4 => ?_⟩ <;>
    simp [*]

/-- C6 witness: a query containing both a risk keyword and a performance
keyword classifies as risk; a query matching no keyword set classifies as
general. -/
theorem C6_witness :
    detect_intent "What are the risks to revenue growth?" = "risk"
    ∧ detect_intent "Tell me about the quarter" = "general" := by
  constructor
  · exact (C6_intent_precedence "What are the risks to revenue growth?").1 (by decide)
  · exact (C6_intent_precedence "Tell me about the quarter").2.2.2.2
      (by decide) (by decide) (by decide) (by decide)

/-- `detect_intent` takes one of exactly five values. -/
theorem detect_intent_cases (query : String) :
    detect_intent query = "risk" ∨ detect_intent query = "outlook"
    ∨ detect_intent query = "performance" ∨ detect_intent query = "people"
    ∨ detect_intent query = "general" := by
  unfold detect_intent
  by_cases h1 : containsAny (pyLower query) riskQueryKeywords <;>
  by_cases h2 : containsAny (pyLower query) outlookQueryKeywords <;>
  by_cases h3 : containsAny (pyLower query) performanceQueryKeywords <;>
  by_cases h4 : containsAny (pyLower query) peopleQueryKeywords <;>
  simp [h1, h2, h3, h4]

/-- C10: `detect_intent` always returns one of the five labels, and every
label it can return is a key of both the `INTENT_KEYWORDS` expansion table
and the `intent_instructions` table, so the expansion lookup and the
instruction selection cannot fail for any query. -/
theorem C10_intent_total (query : String) :
    detect_intent query ∈ ["risk", "outlook", "performance", "people", "general"]
    ∧ (INTENT_KEYWORDS.lookup (detect_intent query)).isSome = true
    ∧ (intent_instructions.lookup (detect_intent query)).isSome = true := by
  rcases detect_intent_cases query with h | h | h | h | h <;>
    rw [h] <;> exact ⟨by decide, by decide, by decide⟩

/-- `digitChar` always yields an ASCII digit. -/
theorem digitChar_isDigit (n : ℕ) : (digitChar n).isDigit = true := by
  unfold digitChar
  have h : n % 10 < 10 := Nat.mod_lt _ (by omega)
  revert h
  generalize n % 10 = m
  intro h
  interval_cases m <;> decide

/-- Every character of `natDigitsAux` is an ASCII digit. -/
theorem natDigitsAux_isDigit (fuel : ℕ) :
    ∀ n, ∀ c ∈ natDigitsAux fuel n, c.isDigit = true := by
  induction fuel with
  | zero =>
    intro n c hc
    simp [natDigitsAux] at hc
  | succ fuel ih =>
    intro n c hc
    rw [natDigitsAux] at hc
    split at hc
    · simp only [List.mem_singleton] at hc
      subst hc
      exact digitChar_isDigit _
    · rcases List.mem_append.mp hc with h | h
      · exact ih _ c h
      · simp only [List.mem_singleton] at h
        subst h
        exact digitChar_isDigit _

/-- Every character of `natDigits` is an ASCII digit. -/
theorem natDigits_isDigit (n : ℕ) : ∀ c ∈ natDigits n, c.isDigit = true :=
  natDigitsAux_isDigit (n + 1) n

/-- C9: the crore formatter — a value of 150000 renders as `₹1500 crore`
and a value of 500 as `₹500.00 crore`; any value of absolute value at least
100000 is rendered via the `/100`, zero-decimal branch (its rendering
contains no decimal point), and any smaller value is rendered directly with
exactly two decimal digits. -/
theorem C9_fmt_num (v : ℚ) :
    fmt_num (some 150000) = "₹1500 crore".data
    ∧ fmt_num (some 500) = "₹500.00 crore".data
    ∧ (100000 ≤ |v| → '.' ∉ fmt_num (some v))
    ∧ (|v| < 100000 → ∃ pre d1 d2,
        fmt_num (some v) = "₹".data ++ pre ++ '.' :: d1 :: d2 :: " crore".data
        ∧ d1.isDigit = true ∧ d2.isDigit = true) := by
  refine ⟨?_, ?_, fun hv => ?_, fun hv => ?_⟩
  · have h1 : fmt_num (some 150000) =
        "₹".data ++ fmtF0 ((150000 : ℚ) / 100) ++ " crore".data := by
      simp only [fmt_num]
      rw [if_pos (by norm_num)]
    rw [show ((150000 : ℚ)) / 100 = 1500 by norm_num] at h1
    rw [h1]
    decide
  · have h1 : fmt_num (some 500) = "₹".data ++ fmtComma2 500 ++ " crore".data := by
      simp only [fmt_num]
      rw [if_neg (by norm_num)]
    rw [h1]
    unfold fmtComma2
    rw [show ((500 : ℚ)) * 100 = 50000 by norm_num]
    decide
  · have hrw : fmt_num (some v) = "₹".data ++ fmtF0 (v / 100) ++ " crore".data := by
      simp only [fmt_num]
      rw [if_pos hv]
    rw [hrw]
    intro hmem
    rcases List.mem_append.mp hmem with h | h
    · rcases List.mem_append.mp h with h2 | h2
      · revert h2
        decide
      · unfold fmtF0 at h2
        rcases List.mem_append.mp h2 with h3 | h3
        · revert h3
          split <;> decide
        · have hd := natDigits_isDigit _ _ h3
          revert hd
          decide
    · revert h
      decide
  · have hrw : fmt_num (some v) = "₹".data ++ fmtComma2 v ++ " crore".data := by
      simp only [fmt_num]
      rw [if_neg (not_le.mpr hv)]
    rw [hrw]
    refine ⟨(if v < 0 then ['-'] else []) ++
      commaGroup ((roundHalfEven (v * 100)).natAbs / 100),
      digitChar ((roundHalfEven (v * 100)).natAbs % 100 / 10),
      digitChar ((roundHalfEven (v * 100)).natAbs % 10),
      ?_, digitChar_isDigit _, digitChar_isDigit _⟩
    unfold fmtComma2
    simp [List.append_assoc]

/-- C9 witness: the branch properties at the two concrete values of the
spec examples. -/
theorem C9_witness :
    '.' ∉ fmt_num (some 150000)
    ∧ ∃ pre d1 d2,
        fmt_num (some 500) = "₹".data ++ pre ++ '.' :: d1 :: d2 :: " crore".data
        ∧ d1.isDigit = true ∧ d2.isDigit = true := by
  constructor
  · exact (C9_fmt_num 150000).2.2.1 (by norm_num)
  · exact (C9_fmt_num 500).2.2.2 (by norm_num)

/-- C5: the answer composer given an empty chunk list returns the fixed
no-information string without issuing a generation call, and the full
pipeline with zero surviving chunks returns a well-formed result with the
fixed no-information answer and an empty sources list, also without
invoking generation. -/
theorem C5_empty_context (query intent : String) (cn yf : Option String)
    (docs : List (Document × Option ℚ)) (cf yf2 : Option String) (thr : ℚ)
    (out : RetrievalOut) :
    generate_answer query [] intent cn yf = .fixed noInfoAnswer
    ∧ (retrieve_context docs query cf yf2 thr = .ok out → out.chunks = [] →
        retrieve_and_answer docs query cf yf2 thr =
          .ok ⟨.fixed noInfoAnswerPipeline, [], out.intent,
               pyOrStr out.company_filter "All Companies",
               pyOrStr out.year_filter "All Years"⟩) := by
  constructor
  · simp [generate_answer]
  · intro h hc
    unfold retrieve_and_answer
    rw [h]
    simp [hc]

/-- C5 witness: the empty-context behaviour at concrete inputs (an empty
candidate list). -/
theorem C5_witness :
    generate_answer "hello" [] "general" none none = .fixed noInfoAnswer
    ∧ retrieve_and_answer [] "hello" none none (85 / 100) =
        .ok ⟨.fixed noInfoAnswerPipeline, [], "general", "All Companies", "All Years"⟩ := by
  constructor
  · exact (C5_empty_context "hello" "general" none none [] none none (85 / 100)
      ⟨[], [], "general", none, none⟩).1
  · exact (C5_empty_context "hello" "general" none none [] none none (85 / 100)
      ⟨[], [], "general", none, none⟩).2 rfl rfl

/-- A non-empty optional string is truthy. -/
theorem pyTruthy_some_ne (s : String) (h : s ≠ "") : pyTruthy (some s) = some s := by
  unfold pyTruthy
  split
  · rename_i heq
    injection heq with heq'
    exact absurd heq' h
  · rfl

/-- Every attribution record surviving the filtering loop with an active
company key and an active year filter has the key as a substring of its
lower-cased company metadata and exactly the filtered year. -/
theorem filterLoop_sources_filtered (key y : String) (thr : ℚ) :
    ∀ docs : List (Document × Option ℚ),
      ∀ s ∈ (filterLoop (some key) (some y) thr docs).2,
        strContains (pyLower s.company) key = true ∧ s.year = y := by
  intro docs
  induction docs with
  | nil =>
    intro s hs
    simp [filterLoop] at hs
  | cons d rest ih =>
    obtain ⟨doc, score⟩ := d
    intro s hs
    simp only [filterLoop] at hs
    split at hs
    · exact ih s hs
    · rename_i hskip
      simp only [Bool.or_eq_true, Bool.not_eq_true', decide_eq_true_eq, not_or,
        Bool.not_eq_true] at hskip
      simp only [List.mem_cons] at hs
      rcases hs with rfl | hs
      · refine ⟨?_, not_ne_iff.mp hskip.1.2⟩
        have hb := hskip.1.1.2
        simp only [Bool.not_eq_false] at hb
        exact hb
      · exact ih s hs

/-- C4: in `retrieve_context` with an active (non-empty) company filter and
an active year filter, every returned attribution record's stored company
metadata, lower-cased, contains the first word of the lower-cased company
filter as a substring, and its stored year metadata equals the year filter
exactly — no cross-company or cross-year leakage. -/
theorem C4_company_year_filters (docs : List (Document × Option ℚ)) (query : String)
    (cf yf : String) (thr : ℚ) (key : String) (out : RetrievalOut)
    (hcf : cf ≠ "") (hyf : yf ≠ "")
    (hkey : (pyWords (pyLower cf)).head? = some key)
    (hok : retrieve_context docs query (some cf) (some yf) thr = .ok out) :
    ∀ s ∈ out.sources, strContains (pyLower s.company) key = true ∧ s.year = yf := by
  unfold retrieve_context at hok
  simp only [pyTruthy_some_ne cf hcf, pyTruthy_some_ne yf hyf, hkey,
    Except.ok.injEq] at hok
  subst hok
  exact filterLoop_sources_filtered key yf thr docs

/-- The 120-character content used by the concrete retrieval examples. -/
def aText : String :=
  String.mk (List.replicate 120 'a')

/-- A concrete candidate list with chunks for (ICICI Bank, FY2024-25),
(ICICI Bank, FY2023-24) and (TCS, FY2024-25). -/
def c4docs : List (Document × Option ℚ) :=
  [(⟨aText, ⟨"ICICI Bank", "FY2024-25", "Risks & Risk Management", 0⟩⟩, none),
   (⟨aText, ⟨"ICICI Bank", "FY2023-24", "Risks & Risk Management", 1⟩⟩, none),
   (⟨aText, ⟨"TCS", "FY2024-25", "Profit & Loss", 2⟩⟩, none)]

/-- The output of `retrieve_context` on `c4docs` with the ICICI Bank and
FY2024-25 filters. -/
def c4out : RetrievalOut :=
  ⟨[aText], [⟨"ICICI Bank", "FY2024-25", "Risks & Risk Management", 0⟩],
   "general", some "ICICI Bank", some "FY2024-25"⟩

set_option maxRecDepth 40000 in
/-- C4 witness: the filters at work on a concrete index. -/
theorem C4_witness :
    strContains (pyLower "ICICI Bank") "icici" = true
    ∧ ("FY2024-25" : String) = "FY2024-25" :=
  C4_company_year_filters c4docs "hello" "ICICI Bank" "FY2024-25" (85 / 100) "icici" c4out
    (by decide) (by decide) rfl rfl
    ⟨"ICICI Bank", "FY2024-25", "Risks & Risk Management", 0⟩ (by decide)

/-- Two candidate chunks sharing company, year and section but with distinct
chunk indices. -/
def c1docs : List (Document × Option ℚ) :=
  [(⟨aText, ⟨"ICICI Bank", "FY2024-25", "Risks & Risk Management", 0⟩⟩, none),
   (⟨aText, ⟨"ICICI Bank", "FY2024-25", "Risks & Risk Management", 1⟩⟩, none)]

/-- The output of `retrieve_context` on `c1docs` with no filters. -/
def c1out : RetrievalOut :=
  ⟨[aText, aText],
   [⟨"ICICI Bank", "FY2024-25", "Risks & Risk Management", 0⟩,
    ⟨"ICICI Bank", "FY2024-25", "Risks & Risk Management", 1⟩],
   "general", none, none⟩

set_option maxRecDepth 40000 in
/-- C1 counterexample: two surviving candidate chunks sharing
company, year and section contribute TWO entries to the sources list
returned by `retrieve_context` — the function performs no deduplication. -/
theorem C1_counterexample :
    retrieve_context c1docs "hello" none none (85 / 100) = .ok c1out
    ∧ c1out.sources.length = 2
    ∧ c1out.sources.map (fun s => (s.company, s.year, s.«section»)) =
        [("ICICI Bank", "FY2024-25", "Risks & Risk Management"),
         ("ICICI Bank", "FY2024-25", "Risks & Risk Management")] :=
  ⟨rfl, rfl, rfl⟩

/-- Counting card keys through the seen-set loop of `show_main_app`. -/
theorem dedupCards_countP (k : String) :
    ∀ (sources : List SourceRec) (seen : List String),
      (dedupCards seen sources).countP (fun c => decide (sourceKey c = k)) =
        if k ∉ seen ∧ sources.any (fun s => decide (sourceKey s = k)) then 1 else 0 := by
  intro sources
  induction sources with
  | nil =>
    intro seen
    simp [dedupCards]
  | cons s rest ih =>
    intro seen
    simp only [dedupCards]
    split
    · rename_i hmem
      rw [ih seen]
      by_cases hk : k ∈ seen
      · simp [hk]
      · by_cases hsk : sourceKey s = k
        · exact absurd (hsk ▸ hmem) hk
        · simp [hk, hsk]
    · rename_i hmem
      rw [List.countP_cons, ih (sourceKey s :: seen)]
      by_cases hsk : sourceKey s = k
      · subst hsk
        simp [hmem]
      · by_cases hk : k ∈ seen
        · simp [hk, hsk]
        · simp [hk, hsk, Ne.symm hsk]

/-- C1 amended: `retrieve_context` emits exactly one attribution record per
surviving chunk (no deduplication there); the `company|year|section`
deduplication happens when an answer's sources are rendered as citation
cards, where every key present among the sources yields exactly one card. -/
theorem C1_dedup_amended (ck yf : Option String) (thr : ℚ)
    (docs : List (Document × Option ℚ)) (sources : List SourceRec) :
    (filterLoop ck yf thr docs).1.length = (filterLoop ck yf thr docs).2.length
    ∧ ∀ s ∈ sources,
        (renderedSourceCards sources).countP
          (fun c => decide (sourceKey c = sourceKey s)) = 1 := by
  constructor
  · induction docs with
    | nil => simp [filterLoop]
    | cons d rest ih =>
      obtain ⟨doc, score⟩ := d
      simp only [filterLoop]
      split
      · exact ih
      · simpa using ih
  · intro s hs
    unfold renderedSourceCards
    rw [dedupCards_countP (sourceKey s) sources []]
    have hany : sources.any (fun c => decide (sourceKey c = sourceKey s)) = true :=
      List.any_eq_true.mpr ⟨s, hs, by simp⟩
    simp [hany]

/-- C1 witness: two sources sharing the key collapse to exactly one rendered
card. -/
theorem C1_witness :
    (renderedSourceCards
        [⟨"ICICI Bank", "FY2024-25", "Risks & Risk Management", 0⟩,
         ⟨"ICICI Bank", "FY2024-25", "Risks & Risk Management", 1⟩]).countP
      (fun c => decide (sourceKey c =
        sourceKey ⟨"ICICI Bank", "FY2024-25", "Risks & Risk Management", 0⟩)) = 1 :=
  (C1_dedup_amended none none 0 []
      [⟨"ICICI Bank", "FY2024-25", "Risks & Risk Management", 0⟩,
       ⟨"ICICI Bank", "FY2024-25", "Risks & Risk Management", 1⟩]).2
    ⟨"ICICI Bank", "FY2024-25", "Risks & Risk Management", 0⟩ (by decide)

/-- One extraction step only ever appends entries whose text is longer than
40 characters. -/
theorem extractLineStep_qualify (pg : ℕ) (st : String × List (String × List Char × ℕ))
    (line : List Char) (h : ∀ e ∈ st.2, 40 < e.2.1.length) :
    ∀ e ∈ (extractLineStep pg st line).2, 40 < e.2.1.length := by
  simp only [extractLineStep]
  split
  · rename_i hlen
    intro e he
    simp only at he
    rcases List.mem_append.mp he with h1 | h1
    · exact h e h1
    · simp only [List.mem_singleton] at h1
      subst h1
      exact hlen
  · simpa using h

/-- Folding the line step over any line list preserves the length bound. -/
theorem foldLines_qualify (pg : ℕ) (lines : List (List Char)) :
    ∀ st, (∀ e ∈ st.2, 40 < e.2.1.length) →
      ∀ e ∈ (lines.foldl (extractLineStep pg) st).2, 40 < e.2.1.length := by
  induction lines with
  | nil =>
    intro st h
    simpa using h
  | cons l ls ih =>
    intro st h
    rw [List.foldl_cons]
    exact ih _ (extractLineStep_qualify pg st l h)

/-- Every entry of the tagged stream is longer than 40 characters. -/
theorem processPages_qualify (pages : List (List Char)) :
    ∀ e ∈ processPages pages, 40 < e.2.1.length := by
  unfold processPages
  have key : ∀ (ps : List (ℕ × List Char)) (st : String × List (String × List Char × ℕ)),
      (∀ e ∈ st.2, 40 < e.2.1.length) →
      ∀ e ∈ (ps.foldl extractPageStep st).2, 40 < e.2.1.length := by
    intro ps
    induction ps with
    | nil =>
      intro st h
      simpa using h
    | cons p rest ih =>
      intro st h
      rw [List.foldl_cons]
      refine ih _ ?_
      unfold extractPageStep
      split
      · exact h
      · exact foldLines_qualify p.1 (splitNl p.2) st h
  exact key _ _ (by simp)

/-- When a line matches no section keyword, the current section is kept. -/
theorem updateSection_none (cur : String) (line_lower : String)
    (hfind : SECTION_KEYWORDS.find? (fun p => containsAny line_lower p.2) = none) :
    updateSection cur line_lower = cur := by
  unfold updateSection
  rw [hfind]

/-- With no keyword match on any line, every appended entry carries the
incoming section, and the section pointer never moves. -/
theorem foldLines_general (pg : ℕ) (lines : List (List Char))
    (hk : ∀ l ∈ lines,
      SECTION_KEYWORDS.find?
        (fun p => containsAny (pyLower (String.mk (pyStrip l))) p.2) = none) :
    ∀ st : String × List (String × List Char × ℕ),
      st.1 = "MD&A-General" → (∀ e ∈ st.2, e.1 = "MD&A-General") →
      (lines.foldl (extractLineStep pg) st).1 = "MD&A-General"
      ∧ ∀ e ∈ (lines.foldl (extractLineStep pg) st).2, e.1 = "MD&A-General" := by
  induction lines with
  | nil =>
    intro st h1 h2
    exact ⟨h1, h2⟩
  | cons l ls ih =>
    intro st h1 h2
    rw [List.foldl_cons]
    have hfind := hk l (by simp)
    have hstep1 : (extractLineStep pg st l).1 = "MD&A-General" := by
      simp only [extractLineStep]
      split <;> simpa [updateSection_none _ _ hfind] using h1
    have hstep2 : ∀ e ∈ (extractLineStep pg st l).2, e.1 = "MD&A-General" := by
      simp only [extractLineStep]
      split
      · intro e he
        simp only at he
        rcases List.mem_append.mp he with hm | hm
        · exact h2 e hm
        · simp only [List.mem_singleton] at hm
          subst hm
          simpa [updateSection_none _ _ hfind] using h1
      · simpa using h2
    exact ih (fun l' hl' => hk l' (by simp [hl'])) _ hstep1 hstep2

/-- With no keyword match anywhere in the document, every tagged entry
accrues to the `MD&A-General` label. -/
theorem processPages_general (pages : List (List Char))
    (hk : ∀ pg ∈ pages, ∀ l ∈ splitNl pg,
      SECTION_KEYWORDS.find?
        (fun p => containsAny (pyLower (String.mk (pyStrip l))) p.2) = none) :
    ∀ e ∈ processPages pages, e.1 = "MD&A-General" := by
  unfold processPages
  have key : ∀ (ps : List (ℕ × List Char)),
      (∀ p ∈ ps, ∀ l ∈ splitNl p.2,
        SECTION_KEYWORDS.find?
          (fun q => containsAny (pyLower (String.mk (pyStrip l))) q.2) = none) →
      ∀ st : String × List (String × List Char × ℕ),
        st.1 = "MD&A-General" → (∀ e ∈ st.2, e.1 = "MD&A-General") →
        (ps.foldl extractPageStep st).1 = "MD&A-General"
        ∧ ∀ e ∈ (ps.foldl extractPageStep st).2, e.1 = "MD&A-General" := by
    intro ps
    induction ps with
    | nil =>
      intro _ st h1 h2
      exact ⟨h1, h2⟩
    | cons p rest ih =>
      intro hps st h1 h2
      rw [List.foldl_cons]
      have hstep : (extractPageStep st p).1 = "MD&A-General"
          ∧ ∀ e ∈ (extractPageStep st p).2, e.1 = "MD&A-General" := by
        unfold extractPageStep
        split
        · exact ⟨h1, h2⟩
        · exact foldLines_general p.1 (splitNl p.2) (hps p (by simp)) st h1 h2
      exact ih (fun p' hp' => hps p' (by simp [hp'])) _ hstep.1 hstep.2
  intro e he
  have hm := (key ((pages.enumFrom 1))
    (by
      intro p hp
      have : p.2 ∈ pages := by
        have := List.enumFrom_map_snd 1 pages
        exact this ▸ List.mem_map_of_mem Prod.snd hp
      exact hk p.2 this) ("MD&A-General", []) rfl (by simp)).2
  exact hm e he

/-- The entries listed for a section label by `extract_mda_sections` are
exactly its tagged entries. -/
theorem extract_mda_sections_mem (pages : List (List Char)) (L : String)
    (es : List (List Char × ℕ)) (h : (L, es) ∈ extract_mda_sections pages) :
    ∀ x ∈ es, (L, x.1, x.2) ∈ processPages pages := by
  unfold extract_mda_sections at h
  have h2 := List.mem_filter.mp h
  obtain ⟨L', _, heq⟩ := List.mem_map.mp h2.1
  cases heq
  intro x hx
  obtain ⟨t, ht, hxeq⟩ := List.mem_filterMap.mp hx
  by_cases htag : t.1 = L
  · rw [if_pos htag] at hxeq
    injection hxeq with hxeq'
    subst hxeq'
    rw [← htag]
    exact ht
  · rw [if_neg htag] at hxeq
    exact absurd hxeq (by simp)

/-- The forty-character line used by the C8 counterexample: its trimmed
length is exactly 40, and it matches no section keyword. -/
def line40 : List Char :=
  "the quick brown fox jumps over lazy dogs".data

/-- C8 counterexample: a line whose trimmed length is exactly 40 characters
is discarded — the code keeps lines with `len > 40`, not `len >= 40` — so a
page consisting of that single line produces no section at all, although
the claim says the line is appended to the general section. -/
theorem C8_counterexample :
    (pyStrip line40).length = 40 ∧ extract_mda_sections [line40] = [] := by
  constructor
  · decide
  · decide

/-- The line stream of a list of numbered pages: the lines of every
non-falsy page, each paired with its page number, in document order. -/
def docLinesOf (ps : List (ℕ × List Char)) : List (List Char × ℕ) :=
  (ps.filter (fun pg => pg.2 ≠ [])).flatMap
    (fun pg => (splitNl pg.2).map (fun l => (l, pg.1)))

/-- The line stream of a document (pages numbered from 1, empty-text pages
skipped, each page split at newlines). -/
def docLines (pages : List (List Char)) : List (List Char × ℕ) :=
  docLinesOf (pages.enumFrom 1)

/-- The running section pointer after a list of numbered lines: the keyword
fold of `extract_mda_sections` over their stripped, lower-cased texts. -/
def sectionFoldL (cur : String) (lps : List (List Char × ℕ)) : String :=
  lps.foldl (fun c lp => updateSection c (pyLower (String.mk (pyStrip lp.1)))) cur

/-- Per-line description of the extraction loop: walk the document's lines
in order, move the section pointer by each line's keywords, and keep
exactly the lines whose stripped text exceeds 40 characters, each tagged
with the section current when it is processed. -/
def taggedSpec (cur : String) : List (List Char × ℕ) → List (String × List Char × ℕ)
  | [] => []
  | lp :: rest =>
    let lc := pyStrip lp.1
    let cur2 := updateSection cur (pyLower (String.mk lc))
    if 40 < lc.length then (cur2, lc, lp.2) :: taggedSpec cur2 rest
    else taggedSpec cur2 rest

/-- `taggedSpec` splits over append, threading the section pointer. -/
theorem taggedSpec_append :
    ∀ (A B : List (List Char × ℕ)) (cur : String),
      taggedSpec cur (A ++ B) =
        taggedSpec cur A ++ taggedSpec (sectionFoldL cur A) B := by
  intro A
  induction A with
  | nil =>
    intro B cur
    simp [taggedSpec, sectionFoldL]
  | cons lp rest ih =>
    intro B cur
    rw [List.cons_append]
    simp only [taggedSpec]
    have hfold : sectionFoldL cur (lp :: rest) =
        sectionFoldL (updateSection cur (pyLower (String.mk (pyStrip lp.1)))) rest := by
      simp [sectionFoldL]
    split
    · rw [ih, hfold]
      simp
    · rw [ih, hfold]

/-- The line fold of the extraction loop computes the section fold and
appends the per-line description of its lines. -/
theorem foldLines_spec (pg : ℕ) :
    ∀ (lines : List (List Char)) (cur : String) (acc : List (String × List Char × ℕ)),
      lines.foldl (extractLineStep pg) (cur, acc) =
        (sectionFoldL cur (lines.map (fun l => (l, pg))),
         acc ++ taggedSpec cur (lines.map (fun l => (l, pg)))) := by
  intro lines
  induction lines with
  | nil =>
    intro cur acc
    simp [sectionFoldL, taggedSpec]
  | cons l ls ih =>
    intro cur acc
    rw [List.foldl_cons]
    simp only [List.map_cons, taggedSpec]
    have hfold : sectionFoldL cur ((l, pg) :: ls.map (fun l => (l, pg))) =
        sectionFoldL (updateSection cur (pyLower (String.mk (pyStrip l))))
          (ls.map (fun l => (l, pg))) := by
      simp [sectionFoldL]
    rw [hfold]
    by_cases h40 : 40 < (pyStrip l).length
    · have hstep : extractLineStep pg (cur, acc) l =
          (updateSection cur (pyLower (String.mk (pyStrip l))),
           acc ++ [(updateSection cur (pyLower (String.mk (pyStrip l))), pyStrip l, pg)]) := by
        simp [extractLineStep, h40]
      rw [hstep, ih, if_pos h40]
      simp
    · have hstep : extractLineStep pg (cur, acc) l =
          (updateSection cur (pyLower (String.mk (pyStrip l))), acc) := by
        simp [extractLineStep, h40]
      rw [hstep, ih, if_neg h40]

/-- The page fold of the extraction loop computes the section fold and
appends the per-line description of the document's line stream. -/
theorem foldPages_spec :
    ∀ (ps : List (ℕ × List Char)) (cur : String) (acc : List (String × List Char × ℕ)),
      ps.foldl extractPageStep (cur, acc) =
        (sectionFoldL cur (docLinesOf ps), acc ++ taggedSpec cur (docLinesOf ps)) := by
  intro ps
  induction ps with
  | nil =>
    intro cur acc
    simp [docLinesOf, sectionFoldL, taggedSpec]
  | cons p rest ih =>
    intro cur acc
    rw [List.foldl_cons]
    by_cases hp : p.2 = []
    · have hstep : extractPageStep (cur, acc) p = (cur, acc) := by
        simp [extractPageStep, hp]
      have hdl : docLinesOf (p :: rest) = docLinesOf rest := by
        simp [docLinesOf, List.filter_cons, hp]
      rw [hstep, ih, hdl]
    · have hstep : extractPageStep (cur, acc) p =
          (splitNl p.2).foldl (extractLineStep p.1) (cur, acc) := by
        simp [extractPageStep, hp]
      have hdl : docLinesOf (p :: rest) =
          (splitNl p.2).map (fun l => (l, p.1)) ++ docLinesOf rest := by
        simp [docLinesOf, List.filter_cons, hp]
      rw [hstep, foldLines_spec, ih, hdl, taggedSpec_append]
      have hfold : sectionFoldL cur
            ((splitNl p.2).map (fun l => (l, p.1)) ++ docLinesOf rest) =
          sectionFoldL (sectionFoldL cur ((splitNl p.2).map (fun l => (l, p.1))))
            (docLinesOf rest) := by
        simp [sectionFoldL, List.foldl_append]
      rw [hfold]
      simp

/-- The tagged entry stream of `extract_mda_sections` is exactly the
per-line description of the document's line stream. -/
theorem processPages_eq_taggedSpec (pages : List (List Char)) :
    processPages pages = taggedSpec "MD&A-General" (docLines pages) := by
  unfold processPages docLines
  rw [foldPages_spec]
  simp

/-- With no keyword match on any listed line, the section fold stays
put. -/
theorem sectionFoldL_none :
    ∀ (lps : List (List Char × ℕ)) (cur : String),
      (∀ x ∈ lps,
        SECTION_KEYWORDS.find?
          (fun q => containsAny (pyLower (String.mk (pyStrip x.1))) q.2) = none) →
      sectionFoldL cur lps = cur := by
  intro lps
  induction lps with
  | nil =>
    intro cur _
    simp [sectionFoldL]
  | cons lp rest ih =>
    intro cur hk
    have h1 : sectionFoldL cur (lp :: rest) =
        sectionFoldL (updateSection cur (pyLower (String.mk (pyStrip lp.1)))) rest := by
      simp [sectionFoldL]
    rw [h1, updateSection_none _ _ (hk lp (by simp))]
    exact ih cur (fun x hx => hk x (by simp [hx]))

/-- C8 amended: lines of trimmed length at most 40 (including exactly 40)
are discarded and lines of trimmed length above 40 are appended to the
section current when they are processed — stated as (1) every tagged entry
exceeds 40 characters, (2) the section map lists exactly the tagged
entries, (3) the tagged entry stream equals, line for line, the per-line
description that keeps every above-40 line with the current section and
drops every other line, (4) every above-40 line of the document is
appended, tagged with the keyword fold of the lines up to and including
it, and (5) an above-40 line preceded only by keyword-free lines (itself
included) accrues to `MD&A-General`, whatever follows it. -/
theorem C8_extraction_amended (pages : List (List Char)) :
    (∀ e ∈ processPages pages, 40 < e.2.1.length)
    ∧ (∀ L es, (L, es) ∈ extract_mda_sections pages →
        ∀ x ∈ es, 40 < x.1.length ∧ (L, x.1, x.2) ∈ processPages pages)
    ∧ processPages pages = taggedSpec "MD&A-General" (docLines pages)
    ∧ (∀ pre lp post, docLines pages = pre ++ lp :: post →
        40 < (pyStrip lp.1).length →
        (updateSection (sectionFoldL "MD&A-General" pre)
            (pyLower (String.mk (pyStrip lp.1))),
         pyStrip lp.1, lp.2) ∈ processPages pages)
    ∧ (∀ pre lp post, docLines pages = pre ++ lp :: post →
        (∀ x ∈ pre ++ [lp],
          SECTION_KEYWORDS.find?
            (fun q => containsAny (pyLower (String.mk (pyStrip x.1))) q.2) = none) →
        40 < (pyStrip lp.1).length →
        ("MD&A-General", pyStrip lp.1, lp.2) ∈ processPages pages) := by
  have hkeep : ∀ pre lp post, docLines pages = pre ++ lp :: post →
      40 < (pyStrip lp.1).length →
      (updateSection (sectionFoldL "MD&A-General" pre)
          (pyLower (String.mk (pyStrip lp.1))),
       pyStrip lp.1, lp.2) ∈ processPages pages := by
    intro pre lp post hdoc h40
    rw [processPages_eq_taggedSpec, hdoc, taggedSpec_append]
    apply List.mem_append_right
    simp only [taggedSpec]
    rw [if_pos h40]
    exact List.mem_cons_self _ _
  refine ⟨processPages_qualify pages, ?_, processPages_eq_taggedSpec pages, hkeep, ?_⟩
  · intro L es hLes x hx
    have hmem := extract_mda_sections_mem pages L es hLes x hx
    exact ⟨processPages_qualify pages _ hmem, hmem⟩
  · intro pre lp post hdoc hkw h40
    have h := hkeep pre lp post hdoc h40
    rw [sectionFoldL_none pre "MD&A-General"
          (fun x hx => hkw x (List.mem_append_left _ hx)),
        updateSection_none _ _ (hkw lp (by simp))] at h
    exact h

/-- The forty-one-character line used by the C8 witness. -/
def line41 : List Char :=
  "the quick brown fox jumps over lazy dogs!".data

/-- A keyword-bearing line (`risk management` switches the section). -/
def lineRisk : List Char :=
  "risk management practices remain a priority for the bank".data

/-- The two-line, one-page document of the C8 witness: a keyword-free
41-character line followed by a keyword-bearing line. -/
def c8pages : List (List Char) :=
  [line41 ++ '\n' :: lineRisk]

/-- C8 witness: in a document that does contain keywords, the above-40
keyword-free first line is appended to `MD&A-General` (it precedes the
first keyword match), and the keyword-bearing second line is appended to
the section its own keywords select. -/
theorem C8_witness :
    40 < (pyStrip line41).length
    ∧ ("MD&A-General", pyStrip line41, 1) ∈ processPages c8pages
    ∧ ("Risks & Risk Management", pyStrip lineRisk, 1) ∈ processPages c8pages
    ∧ (∀ e ∈ processPages c8pages, 40 < e.2.1.length) := by
  refine ⟨?_, ?_, ?_, (C8_extraction_amended c8pages).1⟩
  · exact (C8_extraction_amended c8pages).1 ("MD&A-General", pyStrip line41, 1)
      (by decide)
  · exact (C8_extraction_amended c8pages).2.2.2.2 [] (line41, 1) [(lineRisk, 1)]
      (by decide) (by decide) (by decide)
  · exact (C8_extraction_amended c8pages).2.2.2.1 [(line41, 1)] (lineRisk, 1) []
      (by decide) (by decide)

/-- The first chunk emitted by the packing loop extends the incoming
buffer (possibly by nothing). -/
theorem packLoop_head_ext (cs ov : ℕ) :
    ∀ (sents cur : List (List Char)) (size : ℕ) (c : List (List Char))
      (l : List (List (List Char))),
      packLoop cs ov sents cur size = c :: l → ∃ r, c = cur ++ r := by
  intro sents
  induction sents with
  | nil =>
    intro cur size c l h
    simp only [packLoop] at h
    split at h
    · exact absurd h (by simp)
    · injection h with h1 _
      exact ⟨[], by simp [h1.symm]⟩
  | cons s rest ih =>
    intro cur size c l h
    simp only [packLoop] at h
    split at h
    · injection h with h1 _
      exact ⟨[], by simp [h1.symm]⟩
    · obtain ⟨r, hr⟩ := ih _ _ c l h
      exact ⟨[s] ++ r, by simpa [List.append_assoc] using hr⟩

/-- The overlap relation between consecutive chunks: the next chunk is the
last two sentences of the previous one followed by at least one new
sentence. -/
def overlapRel (a b : List (List Char)) : Prop :=
  ∃ r, r ≠ [] ∧ b = a.drop (a.length - 2) ++ r

/-- Consecutive chunks of the packing loop (overlap 2) are related by
`overlapRel`. -/
theorem packLoop_chain (cs : ℕ) :
    ∀ (sents cur : List (List Char)) (size : ℕ),
      List.Chain' overlapRel (packLoop cs 2 sents cur size) := by
  intro sents
  induction sents with
  | nil =>
    intro cur size
    simp only [packLoop]
    split
    · exact List.chain'_nil
    · exact List.chain'_singleton _
  | cons s rest ih =>
    intro cur size
    simp only [packLoop]
    split
    · rw [List.chain'_cons']
      refine ⟨?_, ih _ _⟩
      intro b hb
      cases hh : packLoop cs 2 rest (cur.drop (cur.length - 2) ++ [s])
          (lensSum (cur.drop (cur.length - 2)) + (s.length + 1)) with
      | nil =>
        rw [hh] at hb
        simp at hb
      | cons c l =>
        rw [hh] at hb
        simp only [List.head?_cons, Option.mem_some_iff] at hb
        subst hb
        obtain ⟨r, hr⟩ := packLoop_head_ext cs 2 rest _ _ c l hh
        exact ⟨[s] ++ r, by simp, by simpa [List.append_assoc] using hr⟩
    · exact ih _ _

/-- Every sentence of every chunk of the packing loop comes from the buffer
or from the input sentences. -/
theorem packLoop_sents_mem (cs ov : ℕ) :
    ∀ (sents cur : List (List Char)) (size : ℕ) (c : List (List Char)),
      c ∈ packLoop cs ov sents cur size → ∀ x ∈ c, x ∈ cur ∨ x ∈ sents := by
  intro sents
  induction sents with
  | nil =>
    intro cur size c hc x hx
    simp only [packLoop] at hc
    split at hc
    · simp at hc
    · simp only [List.mem_singleton] at hc
      subst hc
      exact Or.inl hx
  | cons s rest ih =>
    intro cur size c hc x hx
    simp only [packLoop] at hc
    split at hc
    · rcases List.mem_cons.mp hc with rfl | hc'
      · exact Or.inl hx
      · rcases ih _ _ c hc' x hx with h | h
        · rcases List.mem_append.mp h with h2 | h2
          · exact Or.inl (List.drop_subset _ _ h2)
          · simp only [List.mem_singleton] at h2
            subst h2
            exact Or.inr (by simp)
        · exact Or.inr (by simp [h])
    · rcases ih _ _ c hc x hx with h | h
      · rcases List.mem_append.mp h with h2 | h2
        · exact Or.inl h2
        · simp only [List.mem_singleton] at h2
          subst h2
          exact Or.inr (by simp)
      · exact Or.inr (by simp [h])

/-- C7: the chunker never cuts mid-sentence and consecutive chunks overlap
by the final two sentences — the chunks of `chunk_text_by_sentences` are the
space-joins of the packed sentence lists; consecutive packed lists satisfy
`overlapRel` (the later chunk starts with exactly the last two sentences of
the earlier one and adds at least one sentence); and every sentence of every
chunk is one of the input text's filtered sentences. -/
theorem C7_overlap (text : List Char) (chunk_size : ℕ) :
    chunk_text_by_sentences text chunk_size 2 =
      (chunkSentLists text chunk_size 2).map joinSp
    ∧ List.Chain' overlapRel (chunkSentLists text chunk_size 2)
    ∧ ∀ c ∈ chunkSentLists text chunk_size 2, ∀ x ∈ c, x ∈ sentencesOf text := by
  unfold chunkSentLists
  refine ⟨rfl, packLoop_chain chunk_size (sentencesOf text) [] 0, ?_⟩
  intro c hc x hx
  rcases packLoop_sents_mem chunk_size 2 (sentencesOf text) [] 0 c hc x hx with h | h
  · simp at h
  · exact h

/-- The text of the concrete chunking example (four sentences, chunked with
`chunk_size = 40`). -/
def c7text : List Char :=
  "Alpha beta gamma one. Bravo charlie two. Delta echo three. Foxtrot golf four.".data

attribute [local semireducible] applyAbbrevs in
/-- C7 witness: on the concrete text the loop produces three chunks, the
chain property holds of them, and a concrete chunk sentence is indeed an
input sentence. -/
theorem C7_witness :
    List.Chain' overlapRel (chunkSentLists c7text 40 2)
    ∧ (chunkSentLists c7text 40 2).length = 3
    ∧ "Bravo charlie two.".data ∈ sentencesOf c7text := by
  refine ⟨(C7_overlap c7text 40).2.1, by decide, ?_⟩
  exact (C7_overlap c7text 40).2.2
    ["Alpha beta gamma one.".data, "Bravo charlie two.".data] (by decide)
    "Bravo charlie two.".data (by decide)

/-- `lensSum` distributes over append. -/
theorem lensSum_append : ∀ l1 l2 : List (List Char),
    lensSum (l1 ++ l2) = lensSum l1 + lensSum l2 := by
  intro l1 l2
  induction l1 with
  | nil => simp [lensSum]
  | cons a t ih =>
    simp only [List.cons_append]
    show a.length + lensSum (t ++ l2) = lensSum (a :: t) + lensSum l2
    rw [ih]
    show a.length + (lensSum t + lensSum l2) = a.length + lensSum t + lensSum l2
    omega

/-- Length of a space-join: the sentence lengths plus one separator between
each pair. -/
theorem joinSp_length : ∀ l : List (List Char), l ≠ [] →
    (joinSp l).length + 1 = lensSum l + l.length := by
  intro l
  induction l with
  | nil => intro h; exact absurd rfl h
  | cons a t ih =>
    intro _
    cases t with
    | nil =>
      show (joinWith [' '] [a]).length + 1 = lensSum [a] + [a].length
      simp [joinWith, lensSum]
    | cons b t2 =>
      have h2 := ih (by simp)
      have e3 : joinWith [' '] (a :: b :: t2) = a ++ [' '] ++ joinWith [' '] (b :: t2) := rfl
      unfold joinSp at h2 ⊢
      rw [e3]
      simp only [List.length_append, List.length_cons, List.length_nil, lensSum] at h2 ⊢
      generalize hJ : (joinWith [' '] (b :: t2)).length = J at h2 ⊢
      omega

/-- `lensSum` bound from a per-sentence bound. -/
theorem lensSum_le (M : ℕ) : ∀ l : List (List Char),
    (∀ x ∈ l, x.length ≤ M) → lensSum l ≤ l.length * M := by
  intro l
  induction l with
  | nil => simp [lensSum]
  | cons a t ih =>
    intro h
    simp only [lensSum, List.length_cons]
    have h1 := h a (by simp)
    have h2 := ih (fun x hx => h x (by simp [hx]))
    calc a.length + lensSum t ≤ M + t.length * M := Nat.add_le_add h1 h2
      _ = (t.length + 1) * M := by ring

/-- Size bound of the packing loop: when every input sentence (and every
buffered sentence) is at most `M` characters, every chunk it emits joins to
at most `chunk_size + 3 * M + 2` characters — the target size plus the
two-sentence overlap seed and the one sentence admitted past the check. -/
theorem packLoop_bound (cs M : ℕ) :
    ∀ (sents cur : List (List Char)) (size : ℕ),
      (∀ s ∈ sents, s.length ≤ M) →
      (∀ s ∈ cur, s.length ≤ M) →
      lensSum cur + cur.length ≤ size + 2 →
      size ≤ cs + 3 * M + 1 →
      (cur = [] → size = 0) →
      ∀ c ∈ packLoop cs 2 sents cur size,
        (joinSp c).length ≤ cs + 3 * M + 2 := by
  intro sents
  induction sents with
  | nil =>
    intro cur size hs hc hsum hsize hemp c hmem
    simp only [packLoop] at hmem
    split at hmem
    · simp at hmem
    · rename_i hne
      simp only [List.mem_singleton] at hmem
      subst hmem
      have hj := joinSp_length c hne
      omega
  | cons s rest ih =>
    intro cur size hs hc hsum hsize hemp c hmem
    simp only [packLoop] at hmem
    split at hmem
    · rename_i hcond
      rcases List.mem_cons.mp hmem with rfl | hmem'
      · have hj := joinSp_length c hcond.2
        omega
      · have hseedlen : (cur.drop (cur.length - 2)).length ≤ 2 := by
          rw [List.length_drop]
          omega
        have hseedM : ∀ x ∈ cur.drop (cur.length - 2), x.length ≤ M :=
          fun x hx => hc x (List.drop_subset _ _ hx)
        have hseedsum : lensSum (cur.drop (cur.length - 2)) ≤ 2 * M := by
          have h1 := lensSum_le M _ hseedM
          have h2 : (cur.drop (cur.length - 2)).length * M ≤ 2 * M :=
            Nat.mul_le_mul_right M hseedlen
          omega
        have hsM := hs s (by simp)
        refine ih (cur.drop (cur.length - 2) ++ [s])
          (lensSum (cur.drop (cur.length - 2)) + (s.length + 1))
          (fun x hx => hs x (by simp [hx])) ?_ ?_ ?_ ?_ c hmem'
        · intro x hx
          rcases List.mem_append.mp hx with h2 | h2
          · exact hseedM x h2
          · simp only [List.mem_singleton] at h2
            subst h2
            exact hsM
        · rw [lensSum_append, List.length_append]
          simp only [lensSum, List.length_cons, List.length_nil]
          omega
        · omega
        · intro habs
          simp at habs
    · rename_i hcond
      have hsM := hs s (by simp)
      refine ih (cur ++ [s]) (size + (s.length + 1))
        (fun x hx => hs x (by simp [hx])) ?_ ?_ ?_ ?_ c hmem
      · intro x hx
        rcases List.mem_append.mp hx with h2 | h2
        · exact hc x h2
        · simp only [List.mem_singleton] at h2
          subst h2
          exact hsM
      · rw [lensSum_append, List.length_append]
        simp only [lensSum, List.length_cons, List.length_nil]
        omega
      · by_cases hcur : cur = []
        · have h0 := hemp hcur
          omega
        · have hlt : ¬ cs < size + s.length := fun hlt => hcond ⟨hlt, hcur⟩
          omega
      · intro habs
        simp at habs

/-- Every chunk of `chunk_sections` passes the 150-character filter. -/
theorem chunk_sections_min (sections : List (String × List (List Char × ℕ)))
    (company year : String) :
    ∀ ch ∈ chunk_sections sections company year, 150 ≤ ch.content.length := by
  intro ch hch
  unfold chunk_sections at hch
  rw [List.mem_flatten] at hch
  obtain ⟨l, hl, hchl⟩ := hch
  rw [List.mem_map] at hl
  obtain ⟨se, hse, rfl⟩ := hl
  dsimp only at hchl
  split at hchl
  · simp at hchl
  · obtain ⟨ic, hic, heq⟩ := List.mem_filterMap.mp hchl
    split at heq
    · exact absurd heq (by simp)
    · rename_i hlen
      injection heq with heq'
      subst heq'
      simpa using hlen

/-- A join headed by a non-empty piece is non-empty. -/
theorem joinWith_cons_ne (sep a : List Char) (rest : List (List Char))
    (ha : a ≠ []) : joinWith sep (a :: rest) ≠ [] := by
  cases rest with
  | nil => simpa [joinWith] using ha
  | cons b t =>
    simp only [joinWith]
    intro h
    exact ha (List.append_eq_nil.mp ((List.append_eq_nil.mp h).1)).1

/-- Every chunk emitted by the cash-flow generator has non-empty content
(its first header line is always present). -/
theorem generate_cf_chunks_ne (data : CFData) (company : String) :
    ∀ ch ∈ generate_cf_chunks data company, ch.content ≠ [] := by
  intro ch hch
  simp only [generate_cf_chunks] at hch
  split at hch
  · simp at hch
  · simp only [List.mem_singleton] at hch
    subst hch
    apply joinWith_cons_ne
    intro h
    have h2 := (List.append_eq_nil.mp h).2
    exact absurd h2 (by decide)

/-- The cash-flow data of the C3 counterexample: one period, no metric
rows (a sheet with a `CASH FLOW:` header and a `Report Date` row but no
data rows). -/
def c3cf : CFData :=
  ⟨["FY2023-24"], []⟩

/-- C3 counterexample: the Excel financial parser emits a chunk of only 59
characters — far below the claimed 150-character minimum. -/
theorem C3_counterexample :
    (generate_cf_chunks c3cf "ICICI Bank").map (fun ch => ch.content.length) = [59]
    ∧ 59 < 150 :=
  ⟨rfl, by omega⟩

/-- C3 amended: every chunk of the narrative chunker `chunk_sections` has
content of at least 150 characters; every chunk of
`chunk_text_by_sentences` is bounded by the target size plus the overlap
slack (`chunk_size + 3 * M + 2` when every sentence is at most `M`
characters); chunks of the Excel cash-flow path are never empty, but are
not subject to the 150-character minimum. -/
theorem C3_chunk_length_amended (sections : List (String × List (List Char × ℕ)))
    (company year : String) (text : List Char) (chunk_size M : ℕ)
    (data : CFData) (company2 : String) :
    (∀ ch ∈ chunk_sections sections company year, 150 ≤ ch.content.length)
    ∧ ((∀ s ∈ sentencesOf text, s.length ≤ M) →
        ∀ c ∈ chunk_text_by_sentences text chunk_size 2,
          c.length ≤ chunk_size + 3 * M + 2)
    ∧ (∀ ch ∈ generate_cf_chunks data company2, ch.content ≠ []) := by
  refine ⟨chunk_sections_min sections company year, ?_,
    generate_cf_chunks_ne data company2⟩
  intro hM c hc
  unfold chunk_text_by_sentences chunkSentLists at hc
  rw [List.mem_map] at hc
  obtain ⟨cl, hcl, rfl⟩ := hc
  exact packLoop_bound chunk_size M (sentencesOf text) [] 0 hM (by simp)
    (by simp [lensSum]) (by omega) (fun _ => rfl) cl hcl

/-- The one-sentence narrative section text of the C3 witness. -/
def t188 : List Char :=
  "The bank expects steady growth in retail lending and plans continued investment in digital platforms while maintaining a prudent approach to risk and capital allocation over the coming year".data

set_option maxRecDepth 100000 in
attribute [local semireducible] applyAbbrevs in
/-- C3 witness: the three bounds at concrete inputs — a narrative section
yielding a kept chunk of at least 150 characters, a concrete chunk within
the slack bound, and the non-empty cash-flow chunk. -/
theorem C3_witness :
    150 ≤ (⟨t188, ⟨"ICICI Bank", "FY2024-25", "MD&A", "Outlook & Strategy", 0⟩⟩ :
      Chunk).content.length
    ∧ "Alpha beta gamma one. Bravo charlie two.".data.length ≤ 40 + 3 * 21 + 2
    ∧ ((generate_cf_chunks c3cf "ICICI Bank").headD
        ⟨['x'], ⟨"", "", "", "", 0⟩⟩).content ≠ [] := by
  refine ⟨?_, ?_, ?_⟩
  · exact (C3_chunk_length_amended
      [("Outlook & Strategy", [(t188, 1)])] "ICICI Bank" "FY2024-25"
      [] 1000 0 c3cf "ICICI Bank").1 _ (by decide)
  · exact (C3_chunk_length_amended [] "" "" c7text 40 21 c3cf "ICICI Bank").2.1
      (by decide) _ (by decide)
  · exact (C3_chunk_length_amended [] "" "" [] 1000 0 c3cf "ICICI Bank").2.2 _
      (by decide)

end Quantac
